import Mathlib

/-!
Verification of the Bitcoin price-prediction notebook pipeline
(`exercise1.ipynb`): ingestion/cleaning, feature engineering, NaN
filtering, min-max scaling, train/test splitting and the notebook's
cell-level name binding, shallowly embedded over exact rationals.

Floating-point values produced by the dataframe library are modelled by
`PVal`: either NaN, a signed infinity, or a finite rational.  The
arithmetic on `PVal` follows IEEE-754 semantics on exact values (all
finite zeros are positive zeros, as produced by parsing a CSV).
-/

namespace Exercise1

/-- A floating-point value as observed by the dataframe library:
NaN, a signed infinity (`inf true` is plus infinity), or a finite value,
kept exact as a rational. -/
inductive PVal where
  | nan : PVal
  | inf : Bool → PVal
  | num : ℚ → PVal
deriving DecidableEq

/-- IEEE addition on exact values. -/
def PVal.add : PVal → PVal → PVal
  | .nan, _ => .nan
  | _, .nan => .nan
  | .inf s, .inf t => if s = t then .inf s else .nan
  | .inf s, .num _ => .inf s
  | .num _, .inf t => .inf t
  | .num a, .num b => .num (a + b)

/-- IEEE subtraction on exact values. -/
def PVal.sub : PVal → PVal → PVal
  | .nan, _ => .nan
  | _, .nan => .nan
  | .inf s, .inf t => if s = t then .nan else .inf s
  | .inf s, .num _ => .inf s
  | .num _, .inf t => .inf (!t)
  | .num a, .num b => .num (a - b)

/-- IEEE multiplication on exact values (`inf * 0 = nan`). -/
def PVal.mul : PVal → PVal → PVal
  | .nan, _ => .nan
  | _, .nan => .nan
  | .inf s, .inf t => .inf (s = t)
  | .inf s, .num b => if b = 0 then .nan else .inf (s = (0 < b))
  | .num a, .inf t => if a = 0 then .nan else .inf (t = (0 < a))
  | .num a, .num b => .num (a * b)

/-- IEEE division on exact values; all finite zeros are positive zeros,
so `a / 0 = +inf` for `a > 0`, `-inf` for `a < 0`, and `0 / 0 = nan`. -/
def PVal.div : PVal → PVal → PVal
  | .nan, _ => .nan
  | _, .nan => .nan
  | .inf _, .inf _ => .nan
  | .inf s, .num b => if b = 0 then .inf s else .inf (s = (0 < b))
  | .num _, .inf _ => .num 0
  | .num a, .num b =>
      if b = 0 then (if a = 0 then .nan else .inf (0 < a)) else .num (a / b)

instance : Add PVal := ⟨PVal.add⟩
instance : Sub PVal := ⟨PVal.sub⟩
instance : Mul PVal := ⟨PVal.mul⟩
instance : Div PVal := ⟨PVal.div⟩

/-- A parsed datetime value, carrying its calendar components
(the dataframe library's `.dt` accessors project them) and its ordinal
day number (used for datetime subtraction in days). -/
structure Datetime where
  year : ℤ
  month : ℤ
  day : ℤ
  dayofweek : ℤ
  ordinal : ℤ
deriving DecidableEq

/-- One row of the input CSV `coin_Bitcoin.csv`, with the columns the
notebook touches; the `Date` string is represented by its parsed value. -/
structure PriceRow where
  Date : Datetime
  Open : ℚ
  High : ℚ
  Low : ℚ
  Close : ℚ
  Volume : ℚ
  Marketcap : ℚ
deriving DecidableEq

/-- A row after the cleaning cells: `Volume` has been imputed (and may
be NaN when the imputation mean is undefined), the date has been parsed
and the calendar columns `Year, Month, Day, DayOfWeek, DaysSinceStart`
appended. -/
structure CleanRow where
  Date : Datetime
  Open : ℚ
  High : ℚ
  Low : ℚ
  Close : ℚ
  Volume : PVal
  Marketcap : ℚ
  Year : ℤ
  Month : ℤ
  Day : ℤ
  DayOfWeek : ℤ
  DaysSinceStart : ℤ
deriving DecidableEq

/-- `df['Date'].min()` as an ordinal day (0 for an empty table; only
used per-row, so the table is nonempty whenever it matters). -/
def dateMin (df : List PriceRow) : ℤ :=
  ((df.map (fun r => r.Date.ordinal)).min?).getD 0

/-- `non_zero_volumes = df[df['Volume'] > 0]['Volume']`. -/
def non_zero_volumes (df : List PriceRow) : List ℚ :=
  (df.filter (fun r => 0 < r.Volume)).map (fun r => r.Volume)

/-- `mean_volume = non_zero_volumes.mean()`; the mean of an empty
series is NaN. -/
def mean_volume (df : List PriceRow) : PVal :=
  let v := non_zero_volumes df
  if v.length = 0 then PVal.nan else PVal.num (v.sum / (v.length : ℚ))

/-- The cleaning cells: `df.loc[df['Volume'] == 0, 'Volume'] = mean_volume`,
`df['Date'] = pd.to_datetime(df['Date'])`, and the calendar-feature
columns `Year, Month, Day, DayOfWeek, DaysSinceStart`. -/
def clean (df : List PriceRow) : List CleanRow :=
  df.map (fun r =>
    { Date := r.Date
      Open := r.Open
      High := r.High
      Low := r.Low
      Close := r.Close
      Volume := if r.Volume = (0 : ℚ) then mean_volume df else PVal.num r.Volume
      Marketcap := r.Marketcap
      Year := r.Date.year
      Month := r.Date.month
      Day := r.Date.day
      DayOfWeek := r.Date.dayofweek
      DaysSinceStart := r.Date.ordinal - dateMin df })

/-- The `Close` value of row `t` (0 out of range). -/
def closeAt (c : List CleanRow) (t : ℕ) : ℚ := ((c.get? t).map CleanRow.Close).getD 0

/-- The `Open` value of row `t` (0 out of range). -/
def openAt (c : List CleanRow) (t : ℕ) : ℚ := ((c.get? t).map CleanRow.Open).getD 0

/-- The `High` value of row `t` (0 out of range). -/
def highAt (c : List CleanRow) (t : ℕ) : ℚ := ((c.get? t).map CleanRow.High).getD 0

/-- The `Low` value of row `t` (0 out of range). -/
def lowAt (c : List CleanRow) (t : ℕ) : ℚ := ((c.get? t).map CleanRow.Low).getD 0

/-- The (imputed) `Volume` value of row `t`. -/
def volAt (c : List CleanRow) (t : ℕ) : PVal :=
  ((c.get? t).map CleanRow.Volume).getD (PVal.num 0)

/-- `df['PriceChange'] = df['Close'].diff()`: NaN on the first row. -/
def PriceChange (c : List CleanRow) (t : ℕ) : PVal :=
  if t = 0 then PVal.nan
  else PVal.num (closeAt c t) - PVal.num (closeAt c (t - 1))

/-- `df['PriceChangePercent'] = df['Close'].pct_change() * 100`:
`Close[t] / Close[t-1] - 1`, scaled by 100, NaN on the first row. -/
def PriceChangePercent (c : List CleanRow) (t : ℕ) : PVal :=
  if t = 0 then PVal.nan
  else (PVal.num (closeAt c t) / PVal.num (closeAt c (t - 1)) - PVal.num 1) *
    PVal.num 100

/-- `df['DailyRange'] = df['High'] - df['Low']`. -/
def DailyRange (c : List CleanRow) (t : ℕ) : PVal :=
  PVal.num (highAt c t) - PVal.num (lowAt c t)

/-- `df['DailyRangePercent'] = df['DailyRange'] / df['Open'] * 100`. -/
def DailyRangePercent (c : List CleanRow) (t : ℕ) : PVal :=
  DailyRange c t / PVal.num (openAt c t) * PVal.num 100

/-- `series.rolling(window=w).mean()` at position `t`: NaN until the
window is full, otherwise the mean of the `w` values ending at `t`. -/
def rollingMean (w : ℕ) (xs : List ℚ) (t : ℕ) : PVal :=
  if t + 1 < w then PVal.nan
  else PVal.num (((xs.drop (t + 1 - w)).take w).sum / (w : ℚ))

/-- `df['MA7'] = df['Close'].rolling(window=7).mean()`. -/
def MA7 (c : List CleanRow) (t : ℕ) : PVal :=
  rollingMean 7 (c.map CleanRow.Close) t

/-- `df['MA30'] = df['Close'].rolling(window=30).mean()`. -/
def MA30 (c : List CleanRow) (t : ℕ) : PVal :=
  rollingMean 30 (c.map CleanRow.Close) t

/-- `df['DistFromMA7'] = df['Close'] - df['MA7']`. -/
def DistFromMA7 (c : List CleanRow) (t : ℕ) : PVal :=
  PVal.num (closeAt c t) - MA7 c t

/-- `df['DistFromMA7Percent'] = df['DistFromMA7'] / df['MA7'] * 100`. -/
def DistFromMA7Percent (c : List CleanRow) (t : ℕ) : PVal :=
  DistFromMA7 c t / MA7 c t * PVal.num 100

/-- Whether row `t` of the fully-derived table contains a NaN (`dropna`
drops exactly these rows; the raw numeric and calendar columns are
always finite, so only `Volume` and the derived columns can be NaN;
infinities are not dropped by `dropna`). -/
def rowHasNA (c : List CleanRow) (t : ℕ) : Bool :=
  (volAt c t == PVal.nan) || (PriceChange c t == PVal.nan) ||
  (PriceChangePercent c t == PVal.nan) || (DailyRange c t == PVal.nan) ||
  (DailyRangePercent c t == PVal.nan) || (MA7 c t == PVal.nan) ||
  (MA30 c t == PVal.nan) || (DistFromMA7 c t == PVal.nan) ||
  (DistFromMA7Percent c t == PVal.nan)

/-- `df_clean = df.dropna()`, represented by the list of surviving row
indices of the engineered table. -/
def df_clean (df : List PriceRow) : List ℕ :=
  (List.range (clean df).length).filter (fun t => !(rowHasNA (clean df) t))

/-- The finite value of a `PVal` (0 for NaN/infinity; only applied to
values that survived `dropna`, which are finite for the selected
feature columns). -/
def PVal.toRat : PVal → ℚ
  | .num q => q
  | _ => 0

/-- The `Year` value of row `t` (0 out of range). -/
def yearAt (c : List CleanRow) (t : ℕ) : ℤ := ((c.get? t).map CleanRow.Year).getD 0

/-- The `Month` value of row `t` (0 out of range). -/
def monthAt (c : List CleanRow) (t : ℕ) : ℤ := ((c.get? t).map CleanRow.Month).getD 0

/-- The `DayOfWeek` value of row `t` (0 out of range). -/
def dayOfWeekAt (c : List CleanRow) (t : ℕ) : ℤ :=
  ((c.get? t).map CleanRow.DayOfWeek).getD 0

/-- The `DaysSinceStart` value of row `t` (0 out of range). -/
def daysSinceStartAt (c : List CleanRow) (t : ℕ) : ℤ :=
  ((c.get? t).map CleanRow.DaysSinceStart).getD 0

/-- Row `t` of the selected feature columns, in the notebook's order:
`features = ['Open', 'High', 'Low', 'Volume', 'MA7', 'DailyRange',
'Year', 'Month', 'DayOfWeek', 'DaysSinceStart']`. -/
def featureRow (c : List CleanRow) (t : ℕ) : List PVal :=
  [PVal.num (openAt c t), PVal.num (highAt c t), PVal.num (lowAt c t),
   volAt c t, MA7 c t, DailyRange c t,
   PVal.num ((yearAt c t : ℤ) : ℚ), PVal.num ((monthAt c t : ℤ) : ℚ),
   PVal.num ((dayOfWeekAt c t : ℤ) : ℚ), PVal.num ((daysSinceStartAt c t : ℤ) : ℚ)]

/-- `X = df_clean[features]`: the engineered feature matrix over the
rows surviving `dropna` (whose selected features are all finite). -/
def X_full (df : List PriceRow) : List (List ℚ) :=
  (df_clean df).map (fun t => (featureRow (clean df) t).map PVal.toRat)

/-- The per-column state of a fitted `MinMaxScaler` (default feature
range (0, 1)): the observed data minimum and maximum. -/
structure FittedMinMax where
  data_min : ℚ
  data_max : ℚ
deriving DecidableEq

/-- The scaling library's guard for a constant column: a zero data
range is replaced by 1 so the transform stays well defined. -/
def handle_zeros_in_scale (r : ℚ) : ℚ := if r = 0 then 1 else r

/-- The fitted multiplicative factor: `(1 - 0) / data_range`. -/
def FittedMinMax.scale_ (s : FittedMinMax) : ℚ :=
  1 / handle_zeros_in_scale (s.data_max - s.data_min)

/-- The fitted additive offset: `0 - data_min * scale_`. -/
def FittedMinMax.min_ (s : FittedMinMax) : ℚ := 0 - s.data_min * s.scale_

/-- The forward transform `x * scale_ + min_` of the fitted scaler. -/
def FittedMinMax.transform (s : FittedMinMax) (x : ℚ) : ℚ := x * s.scale_ + s.min_

/-- The inverse transform `(y - min_) / scale_` of the fitted scaler. -/
def FittedMinMax.inverse_transform (s : FittedMinMax) (y : ℚ) : ℚ :=
  (y - s.min_) / s.scale_

/-- Fit one min-max scaler column on its observed data (no minimum or
maximum exists for an empty column, so fitting fails there, as the
scaling library rejects an empty input array). -/
def fitColumn (xs : List ℚ) : Option FittedMinMax :=
  match xs.min?, xs.max? with
  | some a, some b => some ⟨a, b⟩
  | _, _ => none

/-- Collect a list of optional values, failing if any is missing. -/
def allSome {α : Type} : List (Option α) → Option (List α)
  | [] => some []
  | none :: _ => none
  | some a :: rest => (allSome rest).map (fun l => a :: l)

/-- Column `j` of a row-major matrix. -/
def colOf (m : List (List ℚ)) (j : ℕ) : List ℚ := m.map (fun row => row.getD j 0)

/-- `scaler_X.fit(X)`: fit one min-max scaler per column of the full
feature matrix; fails on an empty matrix. -/
def fitMatrix (m : List (List ℚ)) : Option (List FittedMinMax) :=
  match m with
  | [] => none
  | r0 :: _ => allSome ((List.range r0.length).map (fun j => fitColumn (colOf m j)))

/-- `scaler.transform` applied to one sample row, column by column. -/
def transformRow (ss : List FittedMinMax) (row : List ℚ) : List ℚ :=
  List.zipWith FittedMinMax.transform ss row

/-- `sample_data = X[-1:]`: the last row of the original (unscaled)
feature matrix. -/
def sample_data (df : List PriceRow) : List ℚ := ((X_full df).getLast?).getD []

/-- `sample_data_scaled = scaler_X.transform(sample_data)`, with
`scaler_X` the scaler fitted on the full feature matrix `X` (empty
when fitting failed, i.e. on an empty matrix). -/
def sample_data_scaled (df : List PriceRow) : List ℚ :=
  match fitMatrix (X_full df) with
  | some ss => transformRow ss (sample_data df)
  | none => []

/-- Modelled from the spec: "the transform parameters (min, max per
column) are fitted once on the full feature/target set" and "Min-max
scaling: linear transform mapping a column's observed [min, max] range
to [0, 1]" — the most recent feature row scaled coordinate-wise by
`(x - min) / (max - min)` with the column minima and maxima of the full
engineered feature matrix (range replaced by 1 when degenerate, the
scaling library's documented guard).  This is the spec-side description
of the single-sample inference input, to be compared with the
notebook's `sample_data_scaled` path. -/
def specScaledSample (df : List PriceRow) : List ℚ :=
  match X_full df with
  | [] => []
  | r0 :: rest =>
      (List.range r0.length).map (fun j =>
        let col := colOf (r0 :: rest) j
        let mn := (col.min?).getD 0
        let mx := (col.max?).getD 0
        ((((r0 :: rest).getLast?).getD []).getD j 0 - mn) /
          (if mx - mn = 0 then 1 else mx - mn))

/-- One code cell of the notebook, abstracted to the global names it
assigns (or imports) and the global names it reads, listed in source
order. -/
structure Cell where
  defines : List String
  uses : List String
deriving DecidableEq

/-- The first name of `names` that is not bound in `env` (the name
whose evaluation raises `NameError`), if any. -/
def firstMissing (env : List String) : List String → Option String
  | [] => none
  | n :: rest => if env.contains n then firstMissing env rest else some n

/-- Execute cells top to bottom, threading the global environment; stop
at the first cell referencing an unbound name, reporting the cell index
and the name (Python's `NameError` terminates the run, and the notebook
attempts no recovery). -/
def runCells (env : List String) (i : ℕ) : List Cell → Except (ℕ × String) (List String)
  | [] => Except.ok env
  | c :: rest =>
      match firstMissing env c.uses with
      | some n => Except.error (i, n)
      | none => runCells (env ++ c.defines) (i + 1) rest

/-- The 27 code cells of `exercise1.ipynb` in order, abstracted to
their global name bindings and references. -/
def notebookCells : List Cell :=
  [⟨["pd", "np", "plt", "sns", "train_test_split", "MinMaxScaler", "metrics",
     "Sequential", "Dense", "ModelCheckpoint", "EarlyStopping", "Adam"], []⟩,
   ⟨[], ["np"]⟩,
   ⟨["df"], ["pd"]⟩,
   ⟨[], ["df"]⟩,
   ⟨["zero_volume_count"], ["df"]⟩,
   ⟨["non_zero_volumes", "mean_volume"], ["df"]⟩,
   ⟨[], ["df", "pd"]⟩,
   ⟨[], ["df"]⟩,
   ⟨[], []⟩,
   ⟨[], ["df"]⟩,
   ⟨[], ["df"]⟩,
   ⟨["df_clean"], ["df"]⟩,
   ⟨[], ["plt", "df_clean"]⟩,
   ⟨["correlation_matrix"], ["df_clean"]⟩,
   ⟨[], ["plt", "sns", "correlation_matrix"]⟩,
   ⟨[], ["correlation_matrix"]⟩,
   ⟨["features", "X", "y", "scaler_X", "scaler_y", "X_scaled", "y_scaled"],
    ["df_clean", "MinMaxScaler"]⟩,
   ⟨["X_train", "X_test", "y_train", "y_test"],
    ["train_test_split", "X_scaled", "y_scaled"]⟩,
   ⟨["model", "optimizer"], ["Sequential", "Dense", "X_train", "Adam"]⟩,
   ⟨["early_stop"], ["EarlyStopping"]⟩,
   ⟨["history"], ["model", "X_train", "y_train", "checkpoint_callback", "early_stop"]⟩,
   ⟨[], ["plt", "history"]⟩,
   ⟨[], ["plt", "history"]⟩,
   ⟨["test_loss", "test_mae", "y_pred_scaled", "y_pred", "y_test_original",
     "mse", "rmse", "mae", "r2"],
    ["model", "X_test", "y_test", "scaler_y", "metrics", "np"]⟩,
   ⟨["indices", "plot_indices"], ["plt", "np", "y_test_original", "y_pred"]⟩,
   ⟨["sample_data", "sample_data_scaled", "sample_prediction_scaled",
     "sample_prediction", "actual_price"],
    ["X", "scaler_X", "model", "scaler_y", "df_clean", "features"]⟩,
   ⟨[], []⟩]

/-- A top-to-bottom execution of the notebook's cells. -/
def runNotebook : Except (ℕ × String) (List String) := runCells [] 0 notebookCells

/-- Modelled from the spec: the internal state update of the splitting
utility's pseudo-random generator (the splitter itself is library code
outside this repository; the spec pins only that it is "a deterministic
partition ... using a fixed pseudo-random seed").  A linear
congruential step stands in for the generator. -/
def lcg (s : ℕ) : ℕ := (s * 1103515245 + 12345) % 2147483648

/-- Modelled from the spec: the splitter's seeded permutation of the
row indices — repeatedly draw one remaining element, the draw driven by
the seed. -/
def shuffle (s : ℕ) (xs : List ℕ) : List ℕ :=
  if h : xs = [] then []
  else xs.getD (s % xs.length) 0 :: shuffle (lcg s) (xs.eraseIdx (s % xs.length))
termination_by xs.length
decreasing_by
  have hl : 0 < xs.length := List.length_pos.mpr h
  have hk : s % xs.length < xs.length := Nat.mod_lt _ hl
  simp [List.length_eraseIdx, hk]
  omega

/-- Modelled from the spec: `train_test_split(n rows, test_size=0.2,
random_state=seed)` — "a deterministic partition of ScaledDataset rows
into disjoint training (80%) and test (20%) subsets using a fixed
pseudo-random seed"; the test part takes `ceil(0.2 * n)` rows of the
seeded permutation (the spec's end-to-end scenario: 971 rows split as
776 training and 195 test), the training part the rest. -/
def train_test_split (n seed : ℕ) : List ℕ × List ℕ :=
  let perm := shuffle seed (List.range n)
  let n_test := (n + 4) / 5
  (perm.drop n_test, perm.take n_test)

/-- A synthetic daily price row for concrete witnesses: positive
prices, positive volume. -/
def sampleRow (i : ℕ) : PriceRow :=
  { Date := ⟨2020, 1, (i : ℤ), ((i % 7 : ℕ) : ℤ), (i : ℤ)⟩
    Open := (i : ℚ) + 1
    High := (i : ℚ) + 2
    Low := (i : ℚ)
    Close := (i : ℚ) + 1
    Volume := (i : ℚ) + 5
    Marketcap := 100 }

/-- A synthetic price table with `n` rows. -/
def sampleTable (n : ℕ) : List PriceRow := (List.range n).map sampleRow

/-- A synthetic price row with zero trading volume. -/
def zeroVolRow (i : ℕ) : PriceRow := { sampleRow i with Volume := 0 }

/-- A synthetic price table with `n` rows, all with zero volume. -/
def zeroVolTable (n : ℕ) : List PriceRow := (List.range n).map zeroVolRow

/-- A three-row table whose first row has zero volume. -/
def mixTable : List PriceRow := [zeroVolRow 0, sampleRow 1, sampleRow 2]

lemma clean_length (df : List PriceRow) : (clean df).length = df.length := by
  simp [clean]

lemma closeAt_clean (df : List PriceRow) (t : ℕ) :
    closeAt (clean df) t = ((df.get? t).map PriceRow.Close).getD 0 := by
  simp [closeAt, clean, List.get?_map, Option.map_map, Function.comp_def]

lemma openAt_clean (df : List PriceRow) (t : ℕ) :
    openAt (clean df) t = ((df.get? t).map PriceRow.Open).getD 0 := by
  simp [openAt, clean, List.get?_map, Option.map_map, Function.comp_def]

lemma volAt_clean (df : List PriceRow) (t : ℕ) :
    volAt (clean df) t = ((df.get? t).map (fun r =>
      if r.Volume = (0 : ℚ) then mean_volume df else PVal.num r.Volume)).getD
        (PVal.num 0) := by
  simp [volAt, clean, List.get?_map, Option.map_map, Function.comp_def]

lemma clean_map_close (df : List PriceRow) :
    (clean df).map CleanRow.Close = df.map PriceRow.Close := by
  simp [clean, List.map_map, Function.comp_def]

lemma closeAt_clean_pos (df : List PriceRow) (hClose : ∀ r ∈ df, 0 < r.Close)
    {t : ℕ} (ht : t < df.length) : 0 < closeAt (clean df) t := by
  rw [closeAt_clean, List.get?_eq_get ht]
  simpa using hClose _ (List.get_mem df t ht)

lemma openAt_clean_pos (df : List PriceRow) (hOpen : ∀ r ∈ df, 0 < r.Open)
    {t : ℕ} (ht : t < df.length) : 0 < openAt (clean df) t := by
  rw [openAt_clean, List.get?_eq_get ht]
  simpa using hOpen _ (List.get_mem df t ht)

lemma num_sub_num (a b : ℚ) : PVal.num a - PVal.num b = PVal.num (a - b) := rfl

lemma num_mul_num (a b : ℚ) : PVal.num a * PVal.num b = PVal.num (a * b) := rfl

lemma num_div_num (a : ℚ) {b : ℚ} (hb : b ≠ 0) :
    PVal.num a / PVal.num b = PVal.num (a / b) := by
  show PVal.div (PVal.num a) (PVal.num b) = _
  simp [PVal.div, hb]

lemma rollingMean_eq_num {w t : ℕ} (xs : List ℚ) (h : ¬t + 1 < w) :
    rollingMean w xs t = PVal.num (((xs.drop (t + 1 - w)).take w).sum / (w : ℚ)) := by
  rw [rollingMean, if_neg h]

lemma rollingMean_eq_nan {w t : ℕ} (xs : List ℚ) (h : t + 1 < w) :
    rollingMean w xs t = PVal.nan := by
  rw [rollingMean, if_pos h]

lemma sum_window_pos (df : List PriceRow) (hClose : ∀ r ∈ df, 0 < r.Close)
    {a w : ℕ} (hw : 0 < w) (hlen : a + w ≤ df.length) :
    0 < (((df.map PriceRow.Close).drop a).take w).sum := by
  apply List.sum_pos
  · intro x hx
    have hx1 : x ∈ df.map PriceRow.Close :=
      List.mem_of_mem_drop (List.mem_of_mem_take hx)
    obtain ⟨r, hr, rfl⟩ := List.mem_map.mp hx1
    exact hClose r hr
  · have hlw : (((df.map PriceRow.Close).drop a).take w).length = w := by
      simp only [List.length_take, List.length_drop, List.length_map]
      omega
    intro hnil
    rw [hnil] at hlw
    simp at hlw
    omega

lemma MA7_clean_pos (df : List PriceRow) (hClose : ∀ r ∈ df, 0 < r.Close)
    {t : ℕ} (h6 : 6 ≤ t) (ht : t < df.length) :
    ∃ q : ℚ, 0 < q ∧ MA7 (clean df) t = PVal.num q := by
  rw [MA7, clean_map_close, rollingMean_eq_num _ (by omega)]
  refine ⟨_, ?_, rfl⟩
  exact div_pos (sum_window_pos df hClose (by omega) (by omega)) (by norm_num)

lemma MA30_clean_num (df : List PriceRow) {t : ℕ} (h29 : 29 ≤ t) :
    ∃ q : ℚ, MA30 (clean df) t = PVal.num q := by
  rw [MA30, rollingMean_eq_num _ (by omega)]
  exact ⟨_, rfl⟩

lemma non_zero_volumes_ne_nil (df : List PriceRow) {s : PriceRow}
    (hs : s ∈ df) (hspos : 0 < s.Volume) : non_zero_volumes df ≠ [] := by
  apply @List.ne_nil_of_mem _ s.Volume
  rw [non_zero_volumes, List.mem_map]
  exact ⟨s, List.mem_filter.mpr ⟨hs, by simpa using hspos⟩, rfl⟩

lemma mean_volume_num (df : List PriceRow) {s : PriceRow}
    (hs : s ∈ df) (hspos : 0 < s.Volume) :
    mean_volume df =
      PVal.num ((non_zero_volumes df).sum / ((non_zero_volumes df).length : ℚ)) := by
  rw [mean_volume]
  exact if_neg (fun h =>
    non_zero_volumes_ne_nil df hs hspos (List.length_eq_zero.mp h))

lemma volAt_clean_num (df : List PriceRow)
    (hVol : (∃ r ∈ df, r.Volume = 0) → ∃ r ∈ df, 0 < r.Volume)
    {t : ℕ} (ht : t < df.length) :
    ∃ q : ℚ, volAt (clean df) t = PVal.num q := by
  rw [volAt_clean, List.get?_eq_get ht]
  by_cases hz : (df.get ⟨t, ht⟩).Volume = 0
  · obtain ⟨s, hs, hspos⟩ := hVol ⟨_, List.get_mem df t ht, hz⟩
    simp only [Option.map_some', Option.getD_some, if_pos hz]
    exact ⟨_, mean_volume_num df hs hspos⟩
  · simp only [Option.map_some', Option.getD_some, if_neg hz]
    exact ⟨_, rfl⟩

lemma rowHasNA_true_of_lt_29 (c : List CleanRow) {t : ℕ} (h : t < 29) :
    rowHasNA c t = true := by
  have h30 : MA30 c t = PVal.nan := by
    rw [MA30, rollingMean_eq_nan _ (by omega)]
  simp [rowHasNA, h30]

lemma rowHasNA_false_of_ge_29 (df : List PriceRow)
    (hClose : ∀ r ∈ df, 0 < r.Close) (hOpen : ∀ r ∈ df, 0 < r.Open)
    (hVol : (∃ r ∈ df, r.Volume = 0) → ∃ r ∈ df, 0 < r.Volume)
    {t : ℕ} (h29 : 29 ≤ t) (ht : t < df.length) :
    rowHasNA (clean df) t = false := by
  have hc1 : 0 < closeAt (clean df) (t - 1) :=
    closeAt_clean_pos df hClose (by omega)
  have ho : 0 < openAt (clean df) t := openAt_clean_pos df hOpen ht
  obtain ⟨m7, hm7pos, hm7⟩ := MA7_clean_pos df hClose (by omega) ht
  obtain ⟨m30, hm30⟩ := MA30_clean_num df h29
  obtain ⟨vq, hvq⟩ := volAt_clean_num df hVol ht
  have h1 : PriceChange (clean df) t =
      PVal.num (closeAt (clean df) t - closeAt (clean df) (t - 1)) := by
    rw [PriceChange, if_neg (show ¬t = 0 by omega), num_sub_num]
  have h2 : PriceChangePercent (clean df) t =
      PVal.num ((closeAt (clean df) t / closeAt (clean df) (t - 1) - 1) * 100) := by
    rw [PriceChangePercent, if_neg (show ¬t = 0 by omega),
      num_div_num _ (ne_of_gt hc1), num_sub_num, num_mul_num]
  have h3 : DailyRange (clean df) t =
      PVal.num (highAt (clean df) t - lowAt (clean df) t) := by
    rw [DailyRange, num_sub_num]
  have h4 : DailyRangePercent (clean df) t =
      PVal.num ((highAt (clean df) t - lowAt (clean df) t) / openAt (clean df) t * 100) := by
    rw [DailyRangePercent, h3, num_div_num _ (ne_of_gt ho), num_mul_num]
  have h5 : DistFromMA7 (clean df) t = PVal.num (closeAt (clean df) t - m7) := by
    rw [DistFromMA7, hm7, num_sub_num]
  have h6 : DistFromMA7Percent (clean df) t =
      PVal.num ((closeAt (clean df) t - m7) / m7 * 100) := by
    rw [DistFromMA7Percent, h5, hm7, num_div_num _ (ne_of_gt hm7pos), num_mul_num]
  simp [rowHasNA, h1, h2, h3, h4, h5, h6, hm7, hm30, hvq]

lemma df_clean_eq_of_good (df : List PriceRow)
    (hClose : ∀ r ∈ df, 0 < r.Close) (hOpen : ∀ r ∈ df, 0 < r.Open)
    (hVol : (∃ r ∈ df, r.Volume = 0) → ∃ r ∈ df, 0 < r.Volume) :
    df_clean df = (List.range df.length).filter (fun t => decide (29 ≤ t)) := by
  rw [df_clean, clean_length]
  apply List.filter_congr
  intro t htmem
  have ht : t < df.length := List.mem_range.mp htmem
  by_cases h : 29 ≤ t
  · rw [rowHasNA_false_of_ge_29 df hClose hOpen hVol h ht]
    simp [h]
  · rw [rowHasNA_true_of_lt_29 _ (by omega)]
    simp [h]

lemma length_filter_range_ge (N k : ℕ) :
    ((List.range N).filter (fun t => decide (k ≤ t))).length = N - k := by
  induction N with
  | zero => simp
  | succ n ih =>
      rw [List.range_succ, List.filter_append, List.length_append, ih]
      by_cases h : k ≤ n
      · simp [h]
        omega
      · simp [h]
        omega

lemma df_clean_nil_of_short (df : List PriceRow) (h : df.length ≤ 29) :
    df_clean df = [] := by
  rw [df_clean]
  apply List.filter_eq_nil_iff.mpr
  intro t htmem
  have ht : t < df.length := by
    have := List.mem_range.mp htmem
    rwa [clean_length] at this
  rw [rowHasNA_true_of_lt_29 _ (by omega)]
  simp

lemma non_zero_volumes_nil_of_zero (df : List PriceRow)
    (hz : ∀ r ∈ df, r.Volume = 0) : non_zero_volumes df = [] := by
  rw [non_zero_volumes]
  have : df.filter (fun r => decide (0 < r.Volume)) = [] := by
    apply List.filter_eq_nil_iff.mpr
    intro r hr
    simp [hz r hr]
  rw [this, List.map_nil]

lemma mean_volume_nan_of_zero (df : List PriceRow)
    (hz : ∀ r ∈ df, r.Volume = 0) : mean_volume df = PVal.nan := by
  rw [mean_volume]
  simp [non_zero_volumes_nil_of_zero df hz]

lemma volAt_clean_nan_of_zero (df : List PriceRow)
    (hz : ∀ r ∈ df, r.Volume = 0) {t : ℕ} (ht : t < df.length) :
    volAt (clean df) t = PVal.nan := by
  rw [volAt_clean, List.get?_eq_get ht]
  simp only [Option.map_some', Option.getD_some,
    if_pos (hz _ (List.get_mem df t ht))]
  exact mean_volume_nan_of_zero df hz

lemma df_clean_nil_of_zero_vol (df : List PriceRow)
    (hz : ∀ r ∈ df, r.Volume = 0) : df_clean df = [] := by
  rw [df_clean]
  apply List.filter_eq_nil_iff.mpr
  intro t htmem
  have ht : t < df.length := by
    have := List.mem_range.mp htmem
    rwa [clean_length] at this
  simp [rowHasNA, volAt_clean_nan_of_zero df hz ht]

lemma sampleTable_length (n : ℕ) : (sampleTable n).length = n := by
  simp [sampleTable]

lemma zeroVolTable_length (n : ℕ) : (zeroVolTable n).length = n := by
  simp [zeroVolTable]

lemma sampleTable_close_pos (n : ℕ) : ∀ r ∈ sampleTable n, 0 < r.Close := by
  intro r hr
  simp only [sampleTable, List.mem_map, List.mem_range] at hr
  obtain ⟨i, _, rfl⟩ := hr
  simp only [sampleRow]
  positivity

lemma sampleTable_open_pos (n : ℕ) : ∀ r ∈ sampleTable n, 0 < r.Open := by
  intro r hr
  simp only [sampleTable, List.mem_map, List.mem_range] at hr
  obtain ⟨i, _, rfl⟩ := hr
  simp only [sampleRow]
  positivity

lemma sampleTable_vol_pos {n : ℕ} (hn : 0 < n) :
    ∃ r ∈ sampleTable n, 0 < r.Volume := by
  refine ⟨sampleRow 0, ?_, ?_⟩
  · exact List.mem_map.mpr ⟨0, List.mem_range.mpr hn, rfl⟩
  · simp only [sampleRow]
    norm_num

lemma zeroVolTable_all_zero (n : ℕ) : ∀ r ∈ zeroVolTable n, r.Volume = 0 := by
  intro r hr
  simp only [zeroVolTable, List.mem_map, List.mem_range] at hr
  obtain ⟨i, _, rfl⟩ := hr
  rfl

lemma take_drop_eq_map_range {xs : List ℚ} {a w : ℕ} (h : a + w ≤ xs.length) :
    (xs.drop a).take w = (List.range w).map (fun i => xs.getD (a + i) 0) := by
  apply List.ext_get
  · simp only [List.length_take, List.length_drop, List.length_map,
      List.length_range]
    omega
  · intro n h1 h2
    have hn : n < w := by
      simp only [List.length_take, List.length_drop] at h1
      omega
    have hxn : a + n < xs.length := by omega
    simp only [List.get_eq_getElem, List.getElem_take, List.getElem_drop,
      List.getElem_map, List.getElem_range, List.getD_eq_getElem xs 0 hxn]

lemma map_close_getD (c : List CleanRow) (j : ℕ) :
    (c.map CleanRow.Close).getD j 0 = closeAt c j := by
  simp [closeAt, List.getD_eq_get?, List.get?_map]

/-- C7: for every row index `t` with the trailing window fully inside
the data, `MA7[t]` and `MA30[t]` are the simple means of `Close` over
the 7 resp. 30 rows ending at `t` inclusive; before the window fills,
each is undefined (NaN). -/
theorem moving_averages_are_trailing_means (c : List CleanRow) (t : ℕ)
    (ht : t < c.length) :
    (6 ≤ t → MA7 c t =
      PVal.num ((((List.range 7).map (fun i => closeAt c (t - 6 + i))).sum) / 7)) ∧
    (t < 6 → MA7 c t = PVal.nan) ∧
    (29 ≤ t → MA30 c t =
      PVal.num ((((List.range 30).map (fun i => closeAt c (t - 29 + i))).sum) / 30)) ∧
    (t < 29 → MA30 c t = PVal.nan) := by
  refine ⟨?_, ?_, ?_, ?_⟩
  · intro h6
    rw [MA7, rollingMean_eq_num _ (by omega)]
    rw [take_drop_eq_map_range (by simp only [List.length_map]; omega)]
    have ha : t + 1 - 7 = t - 6 := by omega
    simp only [ha, map_close_getD]
    norm_num
  · intro h6
    rw [MA7, rollingMean_eq_nan _ (by omega)]
  · intro h29
    rw [MA30, rollingMean_eq_num _ (by omega)]
    rw [take_drop_eq_map_range (by simp only [List.length_map]; omega)]
    have ha : t + 1 - 30 = t - 29 := by omega
    simp only [ha, map_close_getD]
    norm_num
  · intro h29
    rw [MA30, rollingMean_eq_nan _ (by omega)]

/-- Witness for C7 at the 32-row synthetic table and `t = 29`. -/
theorem moving_averages_witness :
    29 < (clean (sampleTable 32)).length ∧
    ((6 ≤ 29 → MA7 (clean (sampleTable 32)) 29 =
      PVal.num ((((List.range 7).map
        (fun i => closeAt (clean (sampleTable 32)) (29 - 6 + i))).sum) / 7)) ∧
    (29 < 6 → MA7 (clean (sampleTable 32)) 29 = PVal.nan) ∧
    (29 ≤ 29 → MA30 (clean (sampleTable 32)) 29 =
      PVal.num ((((List.range 30).map
        (fun i => closeAt (clean (sampleTable 32)) (29 - 29 + i))).sum) / 30)) ∧
    (29 < 29 → MA30 (clean (sampleTable 32)) 29 = PVal.nan)) :=
  ⟨by rw [clean_length, sampleTable_length]; norm_num,
    moving_averages_are_trailing_means (clean (sampleTable 32)) 29
      (by rw [clean_length, sampleTable_length]; norm_num)⟩

/-- C8: the ingestion-and-cleaning stage drops no row and leaves every
input column other than `Volume` (and the parsed `Date`) unchanged:
`Open`, `High`, `Low`, `Close`, `Marketcap` and the row count are
preserved at every position. -/
theorem cleaning_preserves_rows_and_columns (df : List PriceRow) (t : ℕ) :
    (clean df).length = df.length ∧
    ((clean df).get? t).map CleanRow.Open = (df.get? t).map PriceRow.Open ∧
    ((clean df).get? t).map CleanRow.High = (df.get? t).map PriceRow.High ∧
    ((clean df).get? t).map CleanRow.Low = (df.get? t).map PriceRow.Low ∧
    ((clean df).get? t).map CleanRow.Close = (df.get? t).map PriceRow.Close ∧
    ((clean df).get? t).map CleanRow.Marketcap = (df.get? t).map PriceRow.Marketcap := by
  refine ⟨clean_length df, ?_, ?_, ?_, ?_, ?_⟩ <;>
    simp [clean, List.get?_map, Option.map_map, Function.comp_def]

/-- C3: after cleaning, a row with input `Volume = 0` carries the mean
of the strictly-positive input volumes (one global scalar, provided a
positive volume exists), and a row with nonzero input `Volume` is
unchanged. -/
theorem volume_imputation (df : List PriceRow) (t : ℕ) (r : PriceRow)
    (h : df.get? t = some r) :
    (r.Volume = 0 → (∃ s ∈ df, 0 < s.Volume) →
      ((clean df).get? t).map CleanRow.Volume = some (PVal.num
        ((((df.filter (fun s => 0 < s.Volume)).map PriceRow.Volume).sum) /
          ((((df.filter (fun s => 0 < s.Volume)).map PriceRow.Volume).length : ℕ) : ℚ)))) ∧
    (r.Volume ≠ 0 →
      ((clean df).get? t).map CleanRow.Volume = some (PVal.num r.Volume)) := by
  have hbase : ((clean df).get? t).map CleanRow.Volume =
      some (if r.Volume = (0 : ℚ) then mean_volume df else PVal.num r.Volume) := by
    simp only [clean, List.get?_map, Option.map_map, Function.comp_def]
    rw [h]
    rfl
  constructor
  · intro hz hpos
    obtain ⟨s, hs, hspos⟩ := hpos
    rw [hbase, if_pos hz, mean_volume_num df hs hspos]
    rfl
  · intro hnz
    rw [hbase, if_neg hnz]

/-- Witness for C3 at a three-row table whose first row has zero
volume: the imputed value is the mean of the two positive volumes, and
the second row's volume is unchanged. -/
theorem volume_imputation_witness :
    mixTable.get? 0 = some (zeroVolRow 0) ∧
    (((zeroVolRow 0).Volume = 0 → (∃ s ∈ mixTable, 0 < s.Volume) →
      ((clean mixTable).get? 0).map CleanRow.Volume = some (PVal.num
        ((((mixTable.filter (fun s => 0 < s.Volume)).map PriceRow.Volume).sum) /
          ((((mixTable.filter (fun s => 0 < s.Volume)).map PriceRow.Volume).length : ℕ) : ℚ)))) ∧
    ((zeroVolRow 0).Volume ≠ 0 →
      ((clean mixTable).get? 0).map CleanRow.Volume =
        some (PVal.num (zeroVolRow 0).Volume))) :=
  ⟨rfl, volume_imputation mixTable 0 (zeroVolRow 0) rfl⟩

/-- C10: on a table whose every row has zero volume, the imputation
mean is undefined (NaN), the cleaning stage writes NaN into every row's
`Volume` without failing (it is a total transformation), and the
undefined-value filter later discards every row. -/
theorem all_zero_volume_poisons_table (df : List PriceRow)
    (hz : ∀ r ∈ df, r.Volume = 0) :
    mean_volume df = PVal.nan ∧
    (∀ t, t < df.length → volAt (clean df) t = PVal.nan) ∧
    df_clean df = [] :=
  ⟨mean_volume_nan_of_zero df hz,
    fun _ ht => volAt_clean_nan_of_zero df hz ht,
    df_clean_nil_of_zero_vol df hz⟩

/-- Witness for C10 at a concrete three-row all-zero-volume table. -/
theorem all_zero_volume_witness :
    (∀ r ∈ zeroVolTable 3, r.Volume = 0) ∧
    (mean_volume (zeroVolTable 3) = PVal.nan ∧
    (∀ t, t < (zeroVolTable 3).length →
      volAt (clean (zeroVolTable 3)) t = PVal.nan) ∧
    df_clean (zeroVolTable 3) = []) :=
  ⟨zeroVolTable_all_zero 3,
    all_zero_volume_poisons_table (zeroVolTable 3) (zeroVolTable_all_zero 3)⟩

/-- C1 as stated is false: on a 30-row table whose volumes are all
zero, the usable dataset is empty rather than of size 30 − 29 = 1. -/
theorem usable_row_count_counterexample :
    29 < (zeroVolTable 30).length ∧
    (df_clean (zeroVolTable 30)).length ≠ (zeroVolTable 30).length - 29 := by
  constructor
  · rw [zeroVolTable_length]
    norm_num
  · rw [df_clean_nil_of_zero_vol _ (zeroVolTable_all_zero 30), zeroVolTable_length]
    norm_num

/-- C1 (amended): for an input table whose `Open` and `Close` prices
are strictly positive and which, if it contains a zero-volume row, also
contains a positive-volume row, the engineered-and-filtered dataset has
exactly `N - 29` rows when `N > 29` and is empty when `N ≤ 29`. -/
theorem usable_row_count (df : List PriceRow)
    (hClose : ∀ r ∈ df, 0 < r.Close) (hOpen : ∀ r ∈ df, 0 < r.Open)
    (hVol : (∃ r ∈ df, r.Volume = 0) → ∃ r ∈ df, 0 < r.Volume) :
    (29 < df.length → (df_clean df).length = df.length - 29) ∧
    (df.length ≤ 29 → df_clean df = []) := by
  constructor
  · intro _
    rw [df_clean_eq_of_good df hClose hOpen hVol, length_filter_range_ge]
  · intro h
    exact df_clean_nil_of_short df h

/-- Witness for the amended C1 at a 35-row synthetic table: 6 usable
rows remain. -/
theorem usable_row_count_witness :
    (∀ r ∈ sampleTable 35, 0 < r.Close) ∧
    (∀ r ∈ sampleTable 35, 0 < r.Open) ∧
    ((∃ r ∈ sampleTable 35, r.Volume = 0) → ∃ r ∈ sampleTable 35, 0 < r.Volume) ∧
    ((29 < (sampleTable 35).length →
      (df_clean (sampleTable 35)).length = (sampleTable 35).length - 29) ∧
    ((sampleTable 35).length ≤ 29 → df_clean (sampleTable 35) = [])) :=
  ⟨sampleTable_close_pos 35, sampleTable_open_pos 35,
    fun _ => sampleTable_vol_pos (by norm_num),
    usable_row_count (sampleTable 35) (sampleTable_close_pos 35)
      (sampleTable_open_pos 35) (fun _ => sampleTable_vol_pos (by norm_num))⟩

/-- C9 as stated is false in its surfacing half: at a concrete 5-row
table the stages before scaling are total and hand the empty feature
matrix on to the scaling stage — the emptiness is not surfaced as a
failure before reaching it; the first failing operation is the scaler
fit itself, which has no minimum/maximum to compute. -/
theorem short_table_not_surfaced_before_scaling :
    df_clean (sampleTable 5) = [] ∧ X_full (sampleTable 5) = [] ∧
    fitMatrix (X_full (sampleTable 5)) = none := by
  have h1 : df_clean (sampleTable 5) = [] :=
    df_clean_nil_of_short _ (by rw [sampleTable_length]; norm_num)
  have h2 : X_full (sampleTable 5) = [] := by
    rw [X_full, h1]
    rfl
  exact ⟨h1, h2, by rw [h2]; rfl⟩

/-- C9 (amended): any table with fewer than 30 rows yields an empty
usable dataset; the emptiness passes through feature engineering and
filtering without any check and surfaces only at the scaling stage,
where fitting the min-max scaler on the empty matrix fails. -/
theorem short_table_empty_reaches_scaling (df : List PriceRow)
    (h : df.length < 30) :
    df_clean df = [] ∧ X_full df = [] ∧ fitMatrix (X_full df) = none := by
  have h1 : df_clean df = [] := df_clean_nil_of_short df (by omega)
  have h2 : X_full df = [] := by rw [X_full, h1]; rfl
  exact ⟨h1, h2, by rw [h2]; rfl⟩

/-- Witness for the amended C9 at a 7-row synthetic table. -/
theorem short_table_witness :
    (sampleTable 7).length < 30 ∧
    (df_clean (sampleTable 7) = [] ∧ X_full (sampleTable 7) = [] ∧
      fitMatrix (X_full (sampleTable 7)) = none) :=
  ⟨by rw [sampleTable_length]; norm_num,
    short_table_empty_reaches_scaling (sampleTable 7)
      (by rw [sampleTable_length]; norm_num)⟩

lemma handle_zeros_ne (r : ℚ) : handle_zeros_in_scale r ≠ 0 := by
  rw [handle_zeros_in_scale]
  split
  · norm_num
  · assumption

lemma scale_ne_zero (s : FittedMinMax) : s.scale_ ≠ 0 := by
  rw [FittedMinMax.scale_]
  exact one_div_ne_zero (handle_zeros_ne _)

/-- C4: inverting the forward-scaled value of any original value under
a fitted min-max column scaler reproduces the original value exactly
(over exact rationals), in particular within 1e-6 relative tolerance. -/
theorem scaling_round_trip (xs : List ℚ) (s : FittedMinMax)
    (h : fitColumn xs = some s) (x : ℚ) :
    s.inverse_transform (s.transform x) = x ∧
    |s.inverse_transform (s.transform x) - x| ≤ (1 / 1000000) * |x| := by
  have hrt : s.inverse_transform (s.transform x) = x := by
    rw [FittedMinMax.transform, FittedMinMax.inverse_transform,
      add_sub_cancel_right]
    exact mul_div_cancel_right₀ x (scale_ne_zero s)
  refine ⟨hrt, ?_⟩
  rw [hrt, sub_self, abs_zero]
  positivity

/-- Witness for C4 at the one-element column [3] and value 7. -/
theorem scaling_round_trip_witness :
    fitColumn [(3 : ℚ)] = some ⟨3, 3⟩ ∧
    ((⟨3, 3⟩ : FittedMinMax).inverse_transform
        ((⟨3, 3⟩ : FittedMinMax).transform 7) = 7 ∧
      |(⟨3, 3⟩ : FittedMinMax).inverse_transform
        ((⟨3, 3⟩ : FittedMinMax).transform 7) - 7| ≤ (1 / 1000000) * |(7 : ℚ)|) :=
  ⟨rfl, scaling_round_trip [(3 : ℚ)] ⟨3, 3⟩ rfl 7⟩

/-- C2: a top-to-bottom execution of the notebook reaches the training
cell (index 20) and fails there with an unbound-name error on
`checkpoint_callback`, which no cell of the notebook ever defines; the
run terminates with this error and nothing recovers from it. -/
theorem checkpoint_callback_unbound :
    runNotebook = Except.error (20, "checkpoint_callback") ∧
    ∀ c ∈ notebookCells, "checkpoint_callback" ∉ c.defines := by
  exact ⟨rfl, by decide⟩

lemma X_full_row_length (df : List PriceRow) :
    ∀ row ∈ X_full df, row.length = 10 := by
  intro row hrow
  simp only [X_full, List.mem_map] at hrow
  obtain ⟨t, _, rfl⟩ := hrow
  simp [featureRow]

lemma allSome_map_some {α β : Type} (l : List β) (f : β → Option α) (g : β → α)
    (h : ∀ b ∈ l, f b = some (g b)) : allSome (l.map f) = some (l.map g) := by
  induction l with
  | nil => rfl
  | cons b bs ih =>
      have hb := h b (List.mem_cons_self b bs)
      simp only [List.map_cons, hb]
      show (allSome (bs.map f)).map (fun l => g b :: l) = some (g b :: bs.map g)
      rw [ih (fun x hx => h x (List.mem_cons_of_mem _ hx))]
      rfl

lemma fitColumn_of_ne_nil {xs : List ℚ} (h : xs ≠ []) :
    fitColumn xs = some ⟨(xs.min?).getD 0, (xs.max?).getD 0⟩ := by
  cases hmn : xs.min? with
  | none => exact absurd (List.min?_eq_none_iff.mp hmn) h
  | some a =>
      cases hmx : xs.max? with
      | none => exact absurd (List.max?_eq_none_iff.mp hmx) h
      | some b => simp [fitColumn, hmn, hmx]

lemma zipWith_map_range (g : ℕ → FittedMinMax) (row : List ℚ) (k : ℕ)
    (hk : row.length = k) :
    List.zipWith FittedMinMax.transform ((List.range k).map g) row =
      (List.range k).map (fun j => (g j).transform (row.getD j 0)) := by
  apply List.ext_get
  · simp [hk]
  · intro n h1 h2
    have hn : n < k := by
      simp only [List.length_map, List.length_range] at h2
      exact h2
    have hnr : n < row.length := by omega
    simp only [List.get_eq_getElem, List.getElem_zipWith, List.getElem_map,
      List.getElem_range, List.getD_eq_getElem row 0 hnr]

lemma transform_eq_spec_formula (mn mx x : ℚ) :
    (FittedMinMax.transform ⟨mn, mx⟩ x) =
      (x - mn) / (if mx - mn = 0 then 1 else mx - mn) := by
  have hne : handle_zeros_in_scale (mx - mn) ≠ 0 := handle_zeros_ne _
  rw [FittedMinMax.transform, FittedMinMax.min_, FittedMinMax.scale_]
  show x * (1 / handle_zeros_in_scale (mx - mn)) +
      (0 - mn * (1 / handle_zeros_in_scale (mx - mn))) =
    (x - mn) / handle_zeros_in_scale (mx - mn)
  field_simp
  ring

/-- C6: the feature scaler is bound (and fitted) in exactly one cell of
the notebook, no earlier cell reads it, and the notebook's scaled
single-sample inference input coincides with the spec-side description:
each coordinate of the most recent feature row mapped by the per-column
(min, max) parameters of the full engineered feature matrix. -/
theorem scaler_fitted_once_sole_authority :
    ((notebookCells.filter (fun c => c.defines.contains "scaler_X")).length = 1) ∧
    ("scaler_X" ∈ (notebookCells.getD 16 ⟨[], []⟩).defines) ∧
    (∀ c ∈ notebookCells.take 16, "scaler_X" ∉ c.uses) ∧
    (∀ df, sample_data_scaled df = specScaledSample df) := by
  refine ⟨by decide, by decide, by decide, ?_⟩
  intro df
  cases hX : X_full df with
  | nil => simp [sample_data_scaled, specScaledSample, sample_data, hX, fitMatrix]
  | cons r0 rest =>
      have hlen : ∀ row ∈ X_full df, row.length = 10 := X_full_row_length df
      have hr0 : r0.length = 10 :=
        hlen r0 (by rw [hX]; exact List.mem_cons_self r0 rest)
      have hcols : ∀ j ∈ List.range r0.length,
          fitColumn (colOf (r0 :: rest) j) =
            some ⟨((colOf (r0 :: rest) j).min?).getD 0,
                  ((colOf (r0 :: rest) j).max?).getD 0⟩ := by
        intro j _
        apply fitColumn_of_ne_nil
        simp [colOf]
      have hfit : fitMatrix (r0 :: rest) =
          some ((List.range r0.length).map (fun j =>
            (⟨((colOf (r0 :: rest) j).min?).getD 0,
              ((colOf (r0 :: rest) j).max?).getD 0⟩ : FittedMinMax))) := by
        show allSome ((List.range r0.length).map
            (fun j => fitColumn (colOf (r0 :: rest) j))) = _
        exact allSome_map_some _ _ _ hcols
      have hne : (r0 :: rest) ≠ ([] : List (List ℚ)) := List.cons_ne_nil _ _
      have hlast : sample_data df = (((r0 :: rest)).getLast?).getD [] := by
        rw [sample_data, hX]
      have hlrlen : ((((r0 :: rest)).getLast?).getD []).length = 10 := by
        rw [List.getLast?_eq_getLast _ hne, Option.getD_some]
        exact hlen _ (by rw [hX]; exact List.getLast_mem hne)
      simp only [sample_data_scaled, hX, hfit, transformRow]
      rw [hlast]
      rw [zipWith_map_range _ _ r0.length (by rw [hlrlen, hr0])]
      simp only [specScaledSample, hX]
      apply List.map_congr_left
      intro j _
      rw [transform_eq_spec_formula]

/-- Witness for C6 instantiated at the 35-row synthetic table. -/
theorem scaler_sole_authority_witness :
    sample_data_scaled (sampleTable 35) = specScaledSample (sampleTable 35) :=
  (scaler_fitted_once_sole_authority.2.2.2) (sampleTable 35)

lemma shuffle_perm_aux :
    ∀ (n : ℕ) (xs : List ℕ), xs.length ≤ n → ∀ s, (shuffle s xs).Perm xs := by
  intro n
  induction n with
  | zero =>
      intro xs hx s
      have hnil : xs = [] := List.length_eq_zero.mp (Nat.le_zero.mp hx)
      subst hnil
      simp [shuffle]
  | succ n ih =>
      intro xs hx s
      by_cases h : xs = []
      · subst h
        simp [shuffle]
      · rw [shuffle]
        rw [dif_neg h]
        have hl : 0 < xs.length := List.length_pos.mpr h
        have hk : s % xs.length < xs.length := Nat.mod_lt _ hl
        have hlen : (xs.eraseIdx (s % xs.length)).length ≤ n := by
          rw [List.length_eraseIdx]
          simp only [hk, if_true]
          omega
        refine List.Perm.trans (List.Perm.cons _ (ih _ hlen (lcg s))) ?_
        have hgd : xs.getD (s % xs.length) 0 = xs[s % xs.length] :=
          List.getD_eq_getElem xs 0 hk
        rw [hgd, List.eraseIdx_eq_take_drop_succ]
        have hxs : xs.take (s % xs.length) ++
            xs[s % xs.length] :: xs.drop (s % xs.length + 1) = xs := by
          rw [← List.drop_eq_getElem_cons hk]
          exact List.take_append_drop _ _
        have hmid := @List.perm_middle _ (xs[s % xs.length])
          (xs.take (s % xs.length)) (xs.drop (s % xs.length + 1))
        conv_rhs => rw [← hxs]
        exact hmid.symm

lemma shuffle_perm (s : ℕ) (xs : List ℕ) : (shuffle s xs).Perm xs :=
  shuffle_perm_aux xs.length xs le_rfl s

lemma shuffle_length (s : ℕ) (xs : List ℕ) : (shuffle s xs).length = xs.length :=
  (shuffle_perm s xs).length_eq

lemma tts_perm (n seed : ℕ) :
    ((train_test_split n seed).1 ++ (train_test_split n seed).2).Perm
      (List.range n) := by
  rw [train_test_split]
  refine List.Perm.trans List.perm_append_comm ?_
  rw [List.take_append_drop]
  exact shuffle_perm seed (List.range n)

lemma tts_test_length (n seed : ℕ) :
    (train_test_split n seed).2.length = min ((n + 4) / 5) n := by
  rw [train_test_split]
  show (List.take _ _).length = _
  rw [List.length_take, shuffle_length, List.length_range]

lemma tts_train_length (n seed : ℕ) :
    (train_test_split n seed).1.length = n - (n + 4) / 5 := by
  rw [train_test_split]
  show (List.drop _ _).length = _
  rw [List.length_drop, shuffle_length, List.length_range]

/-- C5 as stated is false in its exact-percentage half: at the row
count 971 (the spec's own end-to-end scenario) and seed 42 the test
part holds 195 rows, which is not 20% of 971 (= 194.2), so no run
produces an exact 80%/20% partition there. -/
theorem split_exact_percentages_counterexample :
    ¬((((train_test_split 971 42).2.length : ℚ) = (20 / 100) * 971 ∧
      (((train_test_split 971 42).1.length : ℚ) = (80 / 100) * 971))) := by
  intro hcon
  obtain ⟨h1, _⟩ := hcon
  have h2 : (train_test_split 971 42).2.length = 195 := by
    rw [tts_test_length]
    omega
  rw [h2] at h1
  norm_num at h1

/-- C5 (amended): with equal row counts and equal seeds, two runs of
the train/test split produce the identical partition; it is a disjoint
partition of all row indices, the test part holding `ceil(0.2 * N)`
rows and the training part the remaining `N - ceil(0.2 * N)` (exactly
80%/20% precisely when 5 divides N). -/
theorem split_deterministic_partition (n seed m seed' : ℕ)
    (hn : n = m) (hs : seed = seed') :
    train_test_split n seed = train_test_split m seed' ∧
    List.Disjoint (train_test_split n seed).1 (train_test_split n seed).2 ∧
    ((train_test_split n seed).1 ++ (train_test_split n seed).2).Perm
      (List.range n) ∧
    (train_test_split n seed).2.length = (n + 4) / 5 ∧
    (train_test_split n seed).1.length = n - (n + 4) / 5 := by
  subst hn
  subst hs
  refine ⟨rfl, ?_, tts_perm n seed, ?_, tts_train_length n seed⟩
  · have hnd : ((train_test_split n seed).1 ++ (train_test_split n seed).2).Nodup :=
      ((tts_perm n seed).symm).nodup (List.nodup_range n)
    exact (List.nodup_append.mp hnd).2.2
  · rw [tts_test_length]
    omega

/-- Witness for the amended C5 at 10 rows and seed 42. -/
theorem split_deterministic_witness :
    train_test_split 10 42 = train_test_split 10 42 ∧
    List.Disjoint (train_test_split 10 42).1 (train_test_split 10 42).2 ∧
    ((train_test_split 10 42).1 ++ (train_test_split 10 42).2).Perm
      (List.range 10) ∧
    (train_test_split 10 42).2.length = (10 + 4) / 5 ∧
    (train_test_split 10 42).1.length = 10 - (10 + 4) / 5 :=
  split_deterministic_partition 10 42 10 42 rfl rfl

end Exercise1
